import Mathlib

/-!
Verification development for the work-order OCR repository
(`ocr_utils.py`, `app.py`, `pages/View_Data.py`).

Text is embedded as `List Char`.  Python's `json.loads` is embedded as an
executable fuel-based recursive-descent parser over a JSON value type
(number literals are modelled as integers and only the common escape forms
are handled; no claim below depends on fractional numerals or exotic
escapes).  The streamlit page scripts are embedded as pure functions over
explicit item/outcome data, one constructor per way the external calls can
go (service failure, raised exception, reply text).
-/

/-- JSON values as produced by decoding a model reply. -/
inductive JVal where
  | null
  | bool (b : Bool)
  | num (n : Int)
  | str (s : List Char)
  | arr (elems : List JVal)
  | obj (fields : List (List Char × JVal))

/-- Whitespace characters recognised by `str.strip()` / `json.loads`
(the forms that occur in model replies). -/
def isWsChar (c : Char) : Bool :=
  c = ' ' || c = '\n' || c = '\t' || c = '\r'

/-- Drop leading whitespace. -/
def skipWs (l : List Char) : List Char := l.dropWhile isWsChar

/-- Python's `str.strip()`: drop leading and trailing whitespace. -/
def trimWs (l : List Char) : List Char :=
  ((l.dropWhile isWsChar).reverse.dropWhile isWsChar).reverse

/-- Translate a character following a backslash in a JSON string literal. -/
def unescapeChar (c : Char) : Char :=
  if c = 'n' then '\n'
  else if c = 't' then '\t'
  else if c = 'r' then '\r'
  else c

/-- Parse the body of a JSON string after the opening quote, up to the
closing quote; returns the decoded characters and the rest of the input. -/
def parseStringBody : List Char → Option (List Char × List Char)
  | [] => none
  | c :: rest =>
    if c = '\"' then some ([], rest)
    else if c = '\\' then
      match rest with
      | [] => none
      | e :: rest2 =>
        match parseStringBody rest2 with
        | some (s, r) => some (unescapeChar e :: s, r)
        | none => none
    else
      match parseStringBody rest with
      | some (s, r) => some (c :: s, r)
      | none => none

/-- Digit test for number literals. -/
def isDigitChar (c : Char) : Bool := '0' ≤ c && c ≤ '9'

/-- Accumulate a run of decimal digits. -/
def parseDigitsAux : List Char → Nat → Nat × List Char
  | [], acc => (acc, [])
  | c :: rest, acc =>
    if isDigitChar c then parseDigitsAux rest (acc * 10 + (c.toNat - 48))
    else (acc, c :: rest)

/-- Parse a nonempty run of decimal digits. -/
def parseDigits (l : List Char) : Option (Nat × List Char) :=
  match l with
  | [] => none
  | c :: _ =>
    if isDigitChar c then some (parseDigitsAux l 0) else none

/-- Parse an (integer) JSON number literal. -/
def parseNumber (l : List Char) : Option (JVal × List Char) :=
  match l with
  | [] => none
  | c :: rest =>
    if c = '-' then
      match parseDigits rest with
      | some (n, r) => some (.num (-(n : Int)), r)
      | none => none
    else
      match parseDigits l with
      | some (n, r) => some (.num (n : Int), r)
      | none => none

def lbraceC : Char := '\x7b'
def rbraceC : Char := '\x7d'

mutual

/-- Fuel-based JSON value parser: model of the grammar accepted by
`json.loads`.  Returns the value and the unconsumed input. -/
def parseVal : Nat → List Char → Option (JVal × List Char)
  | 0, _ => none
  | Nat.succ fuel, l =>
    match skipWs l with
    | [] => none
    | c :: rest =>
      if c = '\"' then
        match parseStringBody rest with
        | some (s, r) => some (.str s, r)
        | none => none
      else if c = lbraceC then
        match skipWs rest with
        | [] => none
        | d :: rest2 =>
          if d = rbraceC then some (.obj [], rest2)
          else
            match parseMembers fuel (d :: rest2) with
            | some (ms, r) => some (.obj ms, r)
            | none => none
      else if c = '[' then
        match skipWs rest with
        | [] => none
        | d :: rest2 =>
          if d = ']' then some (.arr [], rest2)
          else
            match parseElems fuel (d :: rest2) with
            | some (es, r) => some (.arr es, r)
            | none => none
      else if c = 'n' then
        if (c :: rest).take 4 = ("null").data then some (.null, (c :: rest).drop 4)
        else none
      else if c = 't' then
        if (c :: rest).take 4 = ("true").data then some (.bool true, (c :: rest).drop 4)
        else none
      else if c = 'f' then
        if (c :: rest).take 5 = ("false").data then some (.bool false, (c :: rest).drop 5)
        else none
      else if c = '-' || isDigitChar c then parseNumber (c :: rest)
      else none

/-- Parse the members of a JSON object after the opening brace (nonempty
case), consuming the closing brace. -/
def parseMembers : Nat → List Char → Option (List (List Char × JVal) × List Char)
  | 0, _ => none
  | Nat.succ fuel, l =>
    match skipWs l with
    | [] => none
    | c :: rest =>
      if c = '\"' then
        match parseStringBody rest with
        | some (k, r1) =>
          match skipWs r1 with
          | ':' :: r2 =>
            match parseVal fuel r2 with
            | some (v, r3) =>
              match skipWs r3 with
              | [] => none
              | d :: r4 =>
                if d = ',' then
                  match parseMembers fuel r4 with
                  | some (ms, r) => some ((k, v) :: ms, r)
                  | none => none
                else if d = rbraceC then some ([(k, v)], r4)
                else none
            | none => none
          | _ => none
        | none => none
      else none

/-- Parse the elements of a JSON array after the opening bracket (nonempty
case), consuming the closing bracket. -/
def parseElems : Nat → List Char → Option (List JVal × List Char)
  | 0, _ => none
  | Nat.succ fuel, l =>
    match parseVal fuel l with
    | some (v, r1) =>
      match skipWs r1 with
      | [] => none
      | d :: r2 =>
        if d = ',' then
          match parseElems fuel r2 with
          | some (es, r) => some (v :: es, r)
          | none => none
        else if d = ']' then some ([v], r2)
        else none
    | none => none

end

/-- Model of Python's `json.loads`: trim the input, parse one JSON value,
and require that nothing but whitespace follows it; any violation raises
(modelled as `none`). -/
def json_loads (s : List Char) : Option JVal :=
  let t := trimWs s
  match parseVal (t.length + 1) t with
  | some (v, rest) => if skipWs rest = [] then some v else none
  | none => none

/-- The opening fence marker tested by `text.startswith("```json")`. -/
def fenceJson : List Char := ("```json").data

/-- The fence marker tested by `text.endswith("```")`. -/
def fence3 : List Char := ("```").data

/-- The fence-stripping cleanup in `extract_work_order_data`
(`ocr_utils.py` lines 43-47): trim, drop a leading ```` ```json ````
marker (7 characters) when present, drop a trailing ```` ``` ```` marker
(3 characters) when present. -/
def stripFences (t0 : List Char) : List Char :=
  let t1 := trimWs t0
  let t2 := if fenceJson <+: t1 then t1.drop 7 else t1
  if fence3 <:+ t2 then t2.take (t2.length - 3) else t2

/-- Outcome of the single `model.generate_content` call: either the call
(or reading `response.text`) raised, or it produced a reply text. -/
inductive ModelReply where
  | failure
  | reply (text : List Char)

/-- `ocr_utils.extract_work_order_data`: one model call, fence-stripping
cleanup, `json.loads`; every raised exception is caught and turned into
`None` (here `none`). -/
def extract_work_order_data (r : ModelReply) : Option JVal :=
  match r with
  | .failure => none
  | .reply t => json_loads (stripFences t)

/-- Python truthiness (the check on the extracted data) of a decoded JSON
value: null, false, zero, and the empty string, array and object are
falsy; everything else is truthy. -/
def pyTruthy : JVal → Bool
  | .null => false
  | .bool b => b
  | .num n => decide (n ≠ 0)
  | .str s => !s.isEmpty
  | .arr l => !l.isEmpty
  | .obj l => !l.isEmpty

/-- Python dict assignment `o[k] = v`: overwrite the first binding of `k`
in place, else append a new binding at the end (insertion order). -/
def objSet (o : List (List Char × JVal)) (k : List Char) (v : JVal) :
    List (List Char × JVal) :=
  match o with
  | [] => [(k, v)]
  | (k0, v0) :: rest =>
    if k0 = k then (k0, v) :: rest else (k0, v0) :: objSet rest k v

/-- Python dict lookup `o[k]`. -/
def objLookup (o : List (List Char × JVal)) (k : List Char) : Option JVal :=
  match o with
  | [] => none
  | (k0, v0) :: rest => if k0 = k then some v0 else objLookup rest k

/-- The provenance key stamped by the pipeline. -/
def filenameKey : List Char := ("filename").data

/-- The nine field names requested in the extraction prompt
(`ocr_utils.py` lines 23-37). -/
def promptFields : List (List Char) :=
  [("work_order_number").data, ("job_number").data, ("description").data,
   ("date").data, ("hours").data, ("total_amount_due").data,
   ("signed_by_both").data, ("customer_sign").data, ("wcdp_sign").data]

/-- Messages the processing loop can emit for one item: the warning branch
that reports a failed extraction naming the file, and the error branch of
the exception handler naming the file. -/
inductive ItemMsg where
  | warnFailed (name : List Char)
  | errorItem (name : List Char)

/-- How processing one uploaded image goes before the extraction call:
either `Image.open` raises, or the model call happens with some outcome. -/
inductive ImgStep where
  | openErr
  | gotReply (r : ModelReply)

/-- One uploaded image: display name plus what happens when it is
processed. -/
structure ImgUpload where
  name : List Char
  step : ImgStep

/-- The Images branch of the Process Files loop for one item
(`app.py` lines 56-66): catch exceptions as an error message; a falsy
extraction result (including the Python None) yields a warning naming the
file and no record; a truthy dict gets the filename stamped under the
provenance key and is appended; a truthy non-dict makes the subscript
assignment raise a type error, caught as an error message. -/
def processImageItem (f : ImgUpload) : List JVal × List ItemMsg :=
  match f.step with
  | .openErr => ([], [.errorItem f.name])
  | .gotReply r =>
    match extract_work_order_data r with
    | none => ([], [.warnFailed f.name])
    | some v =>
      if pyTruthy v then
        match v with
        | .obj o => ([.obj (objSet o filenameKey (.str f.name))], [])
        | _ => ([], [.errorItem f.name])
      else ([], [.warnFailed f.name])

/-- The Images branch over the whole batch, accumulating records and
messages in input order. -/
def processImages (files : List ImgUpload) : List JVal × List ItemMsg :=
  match files with
  | [] => ([], [])
  | f :: rest =>
    let out := processImageItem f
    let outs := processImages rest
    (out.1 ++ outs.1, out.2 ++ outs.2)

/-- How one PDF page goes: rasterization (`load_page`/`get_pixmap`/
`Image.open`) raises, or the model call happens with some outcome. -/
inductive PageStep where
  | rasterErr
  | gotReply (r : ModelReply)

/-- One uploaded PDF: display name plus its pages; `pages = none` models
`fitz.open` raising on malformed input. -/
structure PdfUpload where
  name : List Char
  pages : Option (List PageStep)

/-- The provenance string built in the PDF branch: the display name, the
separator, and the 1-based page number, for 0-based page index `k`. -/
def pdfPageName (name : List Char) (k : Nat) : List Char :=
  name ++ (" - Page ").data ++ (Nat.repr (k + 1)).data

/-- The page loop of the PDF branch (`app.py` lines 74-84), from 0-based
page index `k`: a raised exception (rasterization failure, or `TypeError`
from stamping a truthy non-dict) aborts the remaining pages of this file;
a falsy extraction result contributes nothing and the loop continues.
Returns the records, whether the loop aborted, and how many extraction
attempts were made. -/
def processPdfPages (name : List Char) (k : Nat) :
    List PageStep → List JVal × Bool × Nat
  | [] => ([], false, 0)
  | p :: rest =>
    match p with
    | .rasterErr => ([], true, 0)
    | .gotReply r =>
      match extract_work_order_data r with
      | some v =>
        if pyTruthy v then
          match v with
          | .obj o =>
            let outs := processPdfPages name (k + 1) rest
            (JVal.obj (objSet o filenameKey (.str (pdfPageName name k))) :: outs.1,
             outs.2.1, outs.2.2 + 1)
          | _ => ([], true, 1)
        else
          let outs := processPdfPages name (k + 1) rest
          (outs.1, outs.2.1, outs.2.2 + 1)
      | none =>
        let outs := processPdfPages name (k + 1) rest
        (outs.1, outs.2.1, outs.2.2 + 1)

/-- The PDF branch of the Process Files loop for one file
(`app.py` lines 68-85): `fitz.open` failure or an abort inside the page
loop is caught as a single error message for the file. -/
def processPdfFile (f : PdfUpload) : List JVal × List ItemMsg :=
  match f.pages with
  | none => ([], [.errorItem f.name])
  | some ps =>
    let out := processPdfPages f.name 0 ps
    (out.1, if out.2.1 then [.errorItem f.name] else [])

/-- The PDF branch over the whole batch. -/
def processPdfs (files : List PdfUpload) : List JVal × List ItemMsg :=
  match files with
  | [] => ([], [])
  | f :: rest =>
    let out := processPdfFile f
    let outs := processPdfs rest
    (out.1 ++ outs.1, out.2 ++ outs.2)

/-- The post-run session update (`app.py` lines 89-91): the session slot
for extracted data is assigned only when the run produced a truthy
(nonempty) list, so the stored batch is replaced only by a nonempty run. -/
def updateSession (prev : Option (List JVal)) (run : List JVal) :
    Option (List JVal) :=
  if run.isEmpty then prev else some run

/-- The display condition (`app.py` line 94): the session slot exists and
holds a truthy (nonempty) batch. -/
def displayCond (s : Option (List JVal)) : Bool :=
  match s with
  | none => false
  | some l => !l.isEmpty

/-- The column order hard-coded in `app.py` line 102. -/
def preferred_order : List (List Char) :=
  [("work_order_number").data, ("job_number").data, ("date").data,
   ("hours").data, ("total_amount_due").data, ("signed_by_both").data,
   ("customer_sign").data, ("wcdp_sign").data, ("description").data,
   ("filename").data]

/-- The column reordering (`app.py` line 103):
`[c for c in preferred_order if c in df.columns] +
 [c for c in df.columns if c not in preferred_order]`. -/
def reorderColumns (cols : List (List Char)) : List (List Char) :=
  preferred_order.filter (fun c => decide (c ∈ cols)) ++
    cols.filter (fun c => decide (c ∉ preferred_order))

/-- The pagination arithmetic (`View_Data.py` line 168):
`total_pages = (total_count + page_size - 1) // page_size if total_count
else 1`. -/
def total_pages (total_count page_size : Nat) : Nat :=
  if total_count ≠ 0 then (total_count + page_size - 1) / page_size else 1

/-- The extraction call as a consumer of an oracle of successive model
outcomes: the code makes exactly one `generate_content` call per image
and never retries, so exactly the head outcome is consumed. -/
def extractWithOracle (oracle : List ModelReply) :
    Option JVal × List ModelReply :=
  match oracle with
  | [] => (none, [])
  | r :: rest => (extract_work_order_data r, rest)

/-- A reply text wrapped in the ```` ```json ... ``` ```` style (with the
customary newlines around the payload). -/
def wrapJsonFence (p : List Char) : List Char :=
  ("```json\n").data ++ p ++ ("\n```").data

/-- A reply text wrapped in the bare ```` ``` ... ``` ```` style. -/
def wrapBareFence (p : List Char) : List Char :=
  ("```\n").data ++ p ++ ("\n```").data

/-- An uploaded image whose processing raises no exception (the open
succeeds and, when the extraction result is truthy, it is a dict so that
stamping the filename into it succeeds). -/
def imgWellBehaved (f : ImgUpload) : Bool :=
  match f.step with
  | .openErr => false
  | .gotReply r =>
    match extract_work_order_data r with
    | none => true
    | some v =>
      if pyTruthy v then
        match v with
        | .obj _ => true
        | _ => false
      else true

/-- Whether one uploaded image counts as a failed extraction: the model
call yields `None` or a falsy decoded value, so the item takes the
warning branch. -/
def imgFailed (f : ImgUpload) : Bool :=
  match f.step with
  | .openErr => false
  | .gotReply r =>
    match extract_work_order_data r with
    | none => true
    | some v => !pyTruthy v

/-- The record (if any) one uploaded image contributes: a truthy decoded
dict with the filename stamped in. -/
def imgRecord (f : ImgUpload) : Option JVal :=
  match f.step with
  | .openErr => none
  | .gotReply r =>
    match extract_work_order_data r with
    | some (.obj o) =>
      if pyTruthy (.obj o) then
        some (.obj (objSet o filenameKey (.str f.name)))
      else none
    | _ => none

/-- A PDF page whose processing raises no exception. -/
def pageWellBehaved (p : PageStep) : Bool :=
  match p with
  | .rasterErr => false
  | .gotReply r =>
    match extract_work_order_data r with
    | none => true
    | some v =>
      if pyTruthy v then
        match v with
        | .obj _ => true
        | _ => false
      else true

/-- The record (if any) one PDF page at 0-based index `k` contributes. -/
def pageRecordAt (name : List Char) (k : Nat) (p : PageStep) : Option JVal :=
  match p with
  | .rasterErr => none
  | .gotReply r =>
    match extract_work_order_data r with
    | some (.obj o) =>
      if pyTruthy (.obj o) then
        some (.obj (objSet o filenameKey (.str (pdfPageName name k))))
      else none
    | _ => none

/-- Per the spec's words for the multi-page branch: each page from index
`k` on undergoes one extraction attempt independently, and the successful
pages contribute their stamped records in page order. -/
def independentPageRecords (name : List Char) (k : Nat) :
    List PageStep → List JVal
  | [] => []
  | p :: rest =>
    match pageRecordAt name k p with
    | some v => v :: independentPageRecords name (k + 1) rest
    | none => independentPageRecords name (k + 1) rest

/-- The preferred display order stated in §3 of the spec, with
`description` third. -/
def specSection3Order : List (List Char) :=
  [("work_order_number").data, ("job_number").data, ("description").data,
   ("date").data, ("hours").data, ("total_amount_due").data,
   ("signed_by_both").data, ("customer_sign").data, ("wcdp_sign").data,
   ("filename").data]

/-- Concrete two-image batch used to instantiate the batch theorems: the
first decodes to a work order, the second hits a service failure. -/
def demoImgBatch : List ImgUpload :=
  [⟨("a.png").data, .gotReply (.reply ("\x7b\x22hours\x22:2\x7d").data)⟩,
   ⟨("b.png").data, .gotReply .failure⟩]

/-- Concrete two-page PDF page list used to instantiate the PDF theorems:
page one decodes to a work order, page two fails to decode. -/
def demoPdfPages : List PageStep :=
  [.gotReply (.reply ("```json\n\x7b\x22hours\x22:2\x7d\n```").data),
   .gotReply (.reply ("not json").data)]

theorem trimWs_cons_ws (c : Char) (hc : isWsChar c = true) (l : List Char) :
    trimWs (c :: l) = trimWs l := by
  simp [trimWs, List.dropWhile_cons, hc]

theorem trimWs_append_ws (c : Char) (hc : isWsChar c = true) (l : List Char) :
    trimWs (l ++ [c]) = trimWs l := by
  unfold trimWs
  rw [List.dropWhile_append]
  by_cases h : (l.dropWhile isWsChar).isEmpty
  · rw [if_pos h, List.isEmpty_iff.mp h]
    simp [List.dropWhile_cons, hc]
  · simp only [h, if_false, Bool.false_eq_true]
    rw [List.reverse_append]
    simp [List.dropWhile_cons, hc]

theorem trimWs_sandwich (a b : Char) (m : List Char)
    (ha : isWsChar a = false) (hb : isWsChar b = false) :
    trimWs (a :: (m ++ [b])) = a :: (m ++ [b]) := by
  simp [trimWs, List.dropWhile_cons, ha, hb, List.reverse_append]

theorem trimWs_cons_nonws (c : Char) (hc : isWsChar c = false) (l : List Char) :
    ∃ t, trimWs (c :: l) = c :: t := by
  unfold trimWs
  rw [List.dropWhile_cons]
  rw [hc]
  simp only [Bool.false_eq_true, if_false, List.reverse_cons, List.dropWhile_append]
  by_cases h : (l.reverse.dropWhile isWsChar).isEmpty
  · refine ⟨[], ?_⟩
    simp [h, List.dropWhile_cons, hc]
  · refine ⟨(l.reverse.dropWhile isWsChar).reverse, ?_⟩
    simp [h]

theorem json_loads_wrap_nl (p : List Char) :
    json_loads ('\n' :: (p ++ ['\n'])) = json_loads p := by
  have h : trimWs ('\n' :: (p ++ ['\n'])) = trimWs p := by
    rw [trimWs_cons_ws '\n' rfl, trimWs_append_ws '\n' rfl]
  simp only [json_loads, h]

theorem parseVal_backtick (fuel : Nat) (l : List Char) :
    parseVal (fuel + 1) ('\x60' :: l) = none := by
  simp [parseVal, skipWs, List.dropWhile_cons, isWsChar, isDigitChar, lbraceC]

theorem json_loads_backtick (l : List Char) :
    json_loads ('\x60' :: l) = none := by
  obtain ⟨t, ht⟩ := trimWs_cons_nonws '\x60' rfl l
  simp only [json_loads, ht, List.length_cons]
  rw [parseVal_backtick]

theorem fenceJson_chars :
    fenceJson = ['\x60', '\x60', '\x60', 'j', 's', 'o', 'n'] := rfl

theorem fence3_chars : fence3 = ['\x60', '\x60', '\x60'] := rfl

theorem wrapJson_chars (p : List Char) :
    wrapJsonFence p
      = '\x60' :: (('\x60' :: '\x60' :: 'j' :: 's' :: 'o' :: 'n' :: '\n' ::
          (p ++ ['\n', '\x60', '\x60'])) ++ ['\x60']) := by
  have h1 : ("```json\n").data
      = ['\x60', '\x60', '\x60', 'j', 's', 'o', 'n', '\n'] := rfl
  have h2 : ("\n```").data = ['\n', '\x60', '\x60', '\x60'] := rfl
  simp [wrapJsonFence, h1, h2]

theorem wrapBare_chars (p : List Char) :
    wrapBareFence p
      = '\x60' :: (('\x60' :: '\x60' :: '\n' :: (p ++ ['\n', '\x60', '\x60']))
          ++ ['\x60']) := by
  have h1 : ("```\n").data = ['\x60', '\x60', '\x60', '\n'] := rfl
  have h2 : ("\n```").data = ['\n', '\x60', '\x60', '\x60'] := rfl
  simp [wrapBareFence, h1, h2]

theorem stripFences_wrapJson (p : List Char) :
    stripFences (wrapJsonFence p) = '\n' :: (p ++ ['\n']) := by
  have htrim : trimWs (wrapJsonFence p) = wrapJsonFence p := by
    rw [wrapJson_chars]
    exact trimWs_sandwich _ _ _ rfl rfl
  have hdecomp : wrapJsonFence p
      = fenceJson ++ ('\n' :: ((p ++ ['\n']) ++ fence3)) := by
    rw [wrapJson_chars, fenceJson_chars, fence3_chars]
    simp
  have hpre : fenceJson <+: wrapJsonFence p := by
    rw [hdecomp]; exact List.prefix_append _ _
  have hdrop : (wrapJsonFence p).drop 7 = '\n' :: ((p ++ ['\n']) ++ fence3) := by
    rw [hdecomp]
    have : (7 : Nat) = fenceJson.length := rfl
    rw [this, List.drop_left]
  have hsuf : fence3 <:+ ('\n' :: ((p ++ ['\n']) ++ fence3)) := by
    have : '\n' :: ((p ++ ['\n']) ++ fence3) = ('\n' :: (p ++ ['\n'])) ++ fence3 := by
      simp
    rw [this]; exact List.suffix_append _ _
  simp only [stripFences]
  rw [htrim, if_pos hpre, hdrop, if_pos hsuf]
  have hlen : ('\n' :: ((p ++ ['\n']) ++ fence3)).length - 3
      = ('\n' :: (p ++ ['\n'])).length := by
    simp [fence3_chars]
  have hre : '\n' :: ((p ++ ['\n']) ++ fence3) = ('\n' :: (p ++ ['\n'])) ++ fence3 := by
    simp
  rw [hlen, hre, List.take_left]

theorem stripFences_wrapBare (p : List Char) :
    stripFences (wrapBareFence p)
      = '\x60' :: '\x60' :: '\x60' :: '\n' :: (p ++ ['\n']) := by
  have htrim : trimWs (wrapBareFence p) = wrapBareFence p := by
    rw [wrapBare_chars]
    exact trimWs_sandwich _ _ _ rfl rfl
  have hdecomp : wrapBareFence p
      = ('\x60' :: '\x60' :: '\x60' :: '\n' :: (p ++ ['\n'])) ++ fence3 := by
    rw [wrapBare_chars, fence3_chars]
    simp
  have hpre : ¬ fenceJson <+: wrapBareFence p := by
    intro h
    obtain ⟨t, ht⟩ := h
    rw [wrapBare_chars, fenceJson_chars] at ht
    simp at ht
  have hsuf : fence3 <:+ wrapBareFence p := by
    rw [hdecomp]; exact List.suffix_append _ _
  simp only [stripFences]
  rw [htrim, if_neg hpre, if_pos hsuf]
  have hlen : (wrapBareFence p).length - 3
      = ('\x60' :: '\x60' :: '\x60' :: '\n' :: (p ++ ['\n'])).length := by
    rw [hdecomp]; simp [fence3_chars]
  rw [hlen, hdecomp, List.take_left]

theorem stripFences_unfenced (p : List Char) (ht : trimWs p = p)
    (hpre : ¬ fenceJson <+: p) (hsuf : ¬ fence3 <:+ p) :
    stripFences p = p := by
  simp only [stripFences]
  rw [ht, if_neg hpre, if_neg hsuf]

/-- C1 (amended): decoding tolerates the ```` ```json ... ``` ```` wrapping
and unwrapped replies — both decode to the same value as parsing the
unwrapped JSON — but a bare ```` ``` ```` opening fence is not stripped
(only the 7-character `\x60\x60\x60json` marker is), so a valid JSON
payload wrapped in bare fences fails to decode. -/
theorem fence_stripping_tolerance (p : List Char) (v : JVal)
    (hp : json_loads p = some v) (ht : trimWs p = p)
    (hpre : ¬ fenceJson <+: p) (hsuf : ¬ fence3 <:+ p) :
    extract_work_order_data (.reply (wrapJsonFence p)) = some v ∧
    extract_work_order_data (.reply p) = some v ∧
    extract_work_order_data (.reply (wrapBareFence p)) = none := by
  refine ⟨?_, ?_, ?_⟩
  · show json_loads (stripFences (wrapJsonFence p)) = some v
    rw [stripFences_wrapJson, json_loads_wrap_nl, hp]
  · show json_loads (stripFences p) = some v
    rw [stripFences_unfenced p ht hpre hsuf, hp]
  · show json_loads (stripFences (wrapBareFence p)) = none
    rw [stripFences_wrapBare]
    exact json_loads_backtick _

/-- Witness for `fence_stripping_tolerance` at a one-field object payload. -/
theorem fence_stripping_tolerance_witness :
    (json_loads (("\x7b\x22a\x22:1\x7d").data) = some (.obj [(("a").data, .num 1)]) ∧
      trimWs (("\x7b\x22a\x22:1\x7d").data) = ("\x7b\x22a\x22:1\x7d").data ∧
      ¬ fenceJson <+: ("\x7b\x22a\x22:1\x7d").data ∧
      ¬ fence3 <:+ ("\x7b\x22a\x22:1\x7d").data) ∧
    (extract_work_order_data (.reply (wrapJsonFence (("\x7b\x22a\x22:1\x7d").data)))
        = some (.obj [(("a").data, .num 1)]) ∧
      extract_work_order_data (.reply (("\x7b\x22a\x22:1\x7d").data))
        = some (.obj [(("a").data, .num 1)]) ∧
      extract_work_order_data (.reply (wrapBareFence (("\x7b\x22a\x22:1\x7d").data)))
        = none) :=
  ⟨⟨rfl, rfl, by decide, by decide⟩,
    fence_stripping_tolerance _ _ rfl rfl (by decide) (by decide)⟩

/-- C1 counterexample: a valid one-field JSON object payload wrapped in bare
```` ``` ... ``` ```` fences is rejected by `extract_work_order_data`
(result `None`), while the unwrapped payload parses fine — so the claimed
tolerance of the bare wrapping style fails. -/
theorem bare_fence_not_tolerated :
    extract_work_order_data (.reply (("```\n\x7b\x22a\x22:1\x7d\n```").data)) = none ∧
    json_loads (("\x7b\x22a\x22:1\x7d").data) = some (.obj [(("a").data, .num 1)]) :=
  ⟨rfl, rfl⟩

theorem objLookup_eq_none_of_not_mem (o : List (List Char × JVal))
    (k : List Char) (hk : k ∉ o.map Prod.fst) : objLookup o k = none := by
  induction o with
  | nil => rfl
  | cons p rest ih =>
    simp only [List.map_cons, List.mem_cons, not_or] at hk
    obtain ⟨p1, p2⟩ := p
    simp only [objLookup]
    rw [if_neg (fun he => hk.1 he.symm)]
    exact ih hk.2

/-- C2 (amended): on a successful parse, `extract_work_order_data` returns
the decoded JSON verbatim — no step fills omitted schema fields with
null, so a key the model did not supply is a missing key (its lookup
yields nothing); the nine keys are present only when the model itself
emits them. -/
theorem decode_returns_parsed_verbatim (t : List Char)
    (o : List (List Char × JVal)) (k : List Char)
    (h : extract_work_order_data (.reply t) = some (.obj o))
    (hk : k ∉ o.map Prod.fst) :
    json_loads (stripFences t) = some (.obj o) ∧ objLookup o k = none :=
  ⟨h, objLookup_eq_none_of_not_mem o k hk⟩

/-- Witness for `decode_returns_parsed_verbatim`: a one-field object reply
parses, and the omitted schema key work_order_number is missing from
the result. -/
theorem decode_returns_parsed_verbatim_witness :
    (extract_work_order_data (.reply (("\x7b\x22a\x22:1\x7d").data))
        = some (.obj [(("a").data, .num 1)]) ∧
      ("work_order_number").data ∉ ([(("a").data, JVal.num 1)]).map Prod.fst) ∧
    (json_loads (stripFences (("\x7b\x22a\x22:1\x7d").data))
        = some (.obj [(("a").data, .num 1)]) ∧
      objLookup [(("a").data, JVal.num 1)] (("work_order_number").data) = none) :=
  ⟨⟨rfl, by decide⟩,
    decode_returns_parsed_verbatim _ _ _ rfl (by decide)⟩

/-- C2 counterexample: the empty-object reply parses successfully, yet the value
returned by `extract_work_order_data` is the empty mapping: the schema
field `work_order_number` (one of the nine prompt fields) is a missing
key, not a null entry. -/
theorem empty_reply_has_missing_keys :
    extract_work_order_data (.reply (("\x7b\x7d").data)) = some (.obj []) ∧
    objLookup [] (("work_order_number").data) = none ∧
    ("work_order_number").data ∈ promptFields :=
  ⟨rfl, rfl, by decide⟩

/-- C5: the extraction consumes exactly one model-call outcome from the
oracle (single attempt, no retry), and every failure mode — service
error, or a reply whose fence-stripped text is not valid JSON — yields
the same undistinguished `none`, never an exception. -/
theorem single_attempt_extraction (r : ModelReply) (rest : List ModelReply)
    (t : List Char) (hbad : json_loads (stripFences t) = none) :
    (extractWithOracle (r :: rest)).2 = rest ∧
    (extractWithOracle (r :: rest)).1 = extract_work_order_data r ∧
    extract_work_order_data .failure = none ∧
    extract_work_order_data (.reply t) = none :=
  ⟨rfl, rfl, rfl, hbad⟩

/-- Witness for `single_attempt_extraction` at a service failure and the
non-JSON reply text `not json`. -/
theorem single_attempt_extraction_witness :
    (json_loads (stripFences (("not json").data)) = none) ∧
    ((extractWithOracle [ModelReply.failure]).2 = [] ∧
      (extractWithOracle [ModelReply.failure]).1
        = extract_work_order_data .failure ∧
      extract_work_order_data .failure = none ∧
      extract_work_order_data (.reply (("not json").data)) = none) :=
  ⟨rfl, single_attempt_extraction .failure [] _ rfl⟩

theorem processImageItem_eq (f : ImgUpload) (h : imgWellBehaved f = true) :
    processImageItem f
      = ((imgRecord f).toList,
         if imgFailed f then [ItemMsg.warnFailed f.name] else []) := by
  obtain ⟨name, step⟩ := f
  cases step with
  | openErr => simp [imgWellBehaved] at h
  | gotReply r =>
    cases hx : extract_work_order_data r with
    | none => simp [processImageItem, imgRecord, imgFailed, hx]
    | some v =>
      cases htr : pyTruthy v with
      | false =>
        cases v <;> simp_all [processImageItem, imgRecord, imgFailed, hx, htr]
      | true =>
        cases v <;>
          simp_all [processImageItem, imgRecord, imgFailed, imgWellBehaved, hx, htr]

theorem processImages_eq (files : List ImgUpload)
    (h : ∀ f ∈ files, imgWellBehaved f = true) :
    processImages files
      = (files.filterMap imgRecord,
         (files.filter imgFailed).map (fun f => ItemMsg.warnFailed f.name)) := by
  induction files with
  | nil => rfl
  | cons f rest ih =>
    have hf : imgWellBehaved f = true := h f (by simp)
    have hrest : ∀ g ∈ rest, imgWellBehaved g = true :=
      fun g hg => h g (List.mem_cons_of_mem f hg)
    simp only [processImages, ih hrest, processImageItem_eq f hf,
      List.filterMap_cons, List.filter_cons]
    cases hr : imgRecord f <;> cases hfl : imgFailed f <;> simp [hfl]

theorem imgFailed_eq_not_isSome (f : ImgUpload) (h : imgWellBehaved f = true) :
    imgFailed f = !(imgRecord f).isSome := by
  obtain ⟨name, step⟩ := f
  cases step with
  | openErr => simp [imgWellBehaved] at h
  | gotReply r =>
    cases hx : extract_work_order_data r with
    | none => simp [imgRecord, imgFailed, hx]
    | some v =>
      cases htr : pyTruthy v with
      | false => cases v <;> simp_all [imgRecord, imgFailed, hx, htr]
      | true => cases v <;> simp_all [imgRecord, imgFailed, imgWellBehaved, hx, htr]

theorem imgRecord_count (files : List ImgUpload)
    (h : ∀ f ∈ files, imgWellBehaved f = true) :
    (files.filterMap imgRecord).length + (files.filter imgFailed).length
      = files.length := by
  induction files with
  | nil => rfl
  | cons f rest ih =>
    have hf : imgWellBehaved f = true := h f (by simp)
    have hrest : ∀ g ∈ rest, imgWellBehaved g = true :=
      fun g hg => h g (List.mem_cons_of_mem f hg)
    have hcorr := imgFailed_eq_not_isSome f hf
    simp only [List.filterMap_cons, List.filter_cons]
    cases hr : imgRecord f with
    | none =>
      rw [hr] at hcorr
      simp only [Option.isSome_none, Bool.not_false] at hcorr
      simp only [hcorr, if_true, List.length_cons]
      have := ih hrest
      omega
    | some v =>
      rw [hr] at hcorr
      simp only [Option.isSome_some, Bool.not_true] at hcorr
      simp [hcorr]
      have := ih hrest
      omega

/-- C3: for a batch of uploaded images none of which raises, the pipeline
processes every item (records appear in input order as the filter-map of
the per-item outcome over the whole input list), produces exactly
`N - K` records where `K` is the number of items whose extraction fails,
and emits exactly `K` warnings, one naming each failed input. -/
theorem batch_partial_failure (files : List ImgUpload)
    (h : ∀ f ∈ files, imgWellBehaved f = true) :
    (processImages files).1 = files.filterMap imgRecord ∧
    (processImages files).1.length
      = files.length - (files.filter imgFailed).length ∧
    (processImages files).2
      = (files.filter imgFailed).map (fun f => ItemMsg.warnFailed f.name) := by
  have he := processImages_eq files h
  have hc := imgRecord_count files h
  rw [he]
  refine ⟨rfl, ?_, rfl⟩
  simp only []
  omega

/-- Witness for `batch_partial_failure` on a two-image batch with one
success and one service failure. -/
theorem batch_partial_failure_witness :
    (∀ f ∈ demoImgBatch, imgWellBehaved f = true) ∧
    ((processImages demoImgBatch).1 = demoImgBatch.filterMap imgRecord ∧
      (processImages demoImgBatch).1.length
        = demoImgBatch.length - (demoImgBatch.filter imgFailed).length ∧
      (processImages demoImgBatch).2
        = (demoImgBatch.filter imgFailed).map
            (fun f => ItemMsg.warnFailed f.name)) :=
  ⟨by decide, batch_partial_failure demoImgBatch (by decide)⟩

theorem pageRecordAt_some_shape (name : List Char) (k : Nat) (p : PageStep)
    (v : JVal) (h : pageRecordAt name k p = some v) :
    ∃ o, v = JVal.obj (objSet o filenameKey (.str (pdfPageName name k))) := by
  cases p with
  | rasterErr => simp [pageRecordAt] at h
  | gotReply r =>
    cases hx : extract_work_order_data r with
    | none => simp only [pageRecordAt, hx] at h; exact absurd h (by simp)
    | some w =>
      cases w with
      | obj o =>
        simp only [pageRecordAt, hx] at h
        by_cases htr : pyTruthy (.obj o) = true
        · rw [if_pos htr] at h
          injection h with h'
          exact ⟨o, h'.symm⟩
        · rw [if_neg htr] at h
          exact absurd h (by simp)
      | null => simp only [pageRecordAt, hx] at h; exact absurd h (by simp)
      | bool b => simp only [pageRecordAt, hx] at h; exact absurd h (by simp)
      | num n => simp only [pageRecordAt, hx] at h; exact absurd h (by simp)
      | str s => simp only [pageRecordAt, hx] at h; exact absurd h (by simp)
      | arr es => simp only [pageRecordAt, hx] at h; exact absurd h (by simp)

theorem processPdfPages_eq (name : List Char) (ps : List PageStep)
    (h : ∀ p ∈ ps, pageWellBehaved p = true) :
    ∀ k, processPdfPages name k ps
      = (independentPageRecords name k ps, false, ps.length) := by
  induction ps with
  | nil => intro k; rfl
  | cons p rest ih =>
    intro k
    have hp : pageWellBehaved p = true := h p (by simp)
    have hrest : ∀ q ∈ rest, pageWellBehaved q = true :=
      fun q hq => h q (List.mem_cons_of_mem p hq)
    cases p with
    | rasterErr => simp [pageWellBehaved] at hp
    | gotReply r =>
      cases hx : extract_work_order_data r with
      | none =>
        simp [processPdfPages, independentPageRecords, pageRecordAt, hx,
          ih hrest]
      | some v =>
        cases htr : pyTruthy v with
        | false =>
          have hpr : pageRecordAt name k (.gotReply r) = none := by
            cases v <;> simp [pageRecordAt, hx, htr]
          simp [processPdfPages, independentPageRecords, hpr, hx, htr,
            ih hrest]
        | true =>
          cases v with
          | obj o =>
            simp [processPdfPages, independentPageRecords, pageRecordAt, hx,
              htr, ih hrest]
          | null => simp [pageWellBehaved, hx, htr] at hp
          | bool b => simp [pageWellBehaved, hx, htr] at hp
          | num n => simp [pageWellBehaved, hx, htr] at hp
          | str s => simp [pageWellBehaved, hx, htr] at hp
          | arr es => simp [pageWellBehaved, hx, htr] at hp

theorem independentPageRecords_length (name : List Char) (ps : List PageStep) :
    ∀ k, (independentPageRecords name k ps).length ≤ ps.length := by
  induction ps with
  | nil => intro k; simp [independentPageRecords]
  | cons p rest ih =>
    intro k
    simp only [independentPageRecords]
    cases hx : pageRecordAt name k p with
    | none =>
      simp only [List.length_cons]
      exact le_trans (ih (k + 1)) (Nat.le_succ _)
    | some v =>
      simp only [List.length_cons]
      exact Nat.succ_le_succ (ih (k + 1))

theorem independentPageRecords_mem (name : List Char) (ps : List PageStep) :
    ∀ k rec, rec ∈ independentPageRecords name k ps →
      ∃ j o, j < ps.length ∧
        rec = JVal.obj (objSet o filenameKey (.str (pdfPageName name (k + j)))) := by
  induction ps with
  | nil => intro k rec h; simp [independentPageRecords] at h
  | cons p rest ih =>
    intro k rec h
    simp only [independentPageRecords] at h
    cases hx : pageRecordAt name k p with
    | none =>
      rw [hx] at h
      obtain ⟨j, o, hj, he⟩ := ih (k + 1) rec h
      have hk : k + 1 + j = k + (j + 1) := by omega
      rw [hk] at he
      exact ⟨j + 1, o, by simp only [List.length_cons]; omega, he⟩
    | some v =>
      rw [hx] at h
      rcases List.mem_cons.mp h with he | hmem
      · obtain ⟨o, ho⟩ := pageRecordAt_some_shape name k p v hx
        refine ⟨0, o, by simp, ?_⟩
        rw [he, ho, Nat.add_zero]
      · obtain ⟨j, o, hj, he⟩ := ih (k + 1) rec hmem
        have hk : k + 1 + j = k + (j + 1) := by omega
        rw [hk] at he
        exact ⟨j + 1, o, by simp only [List.length_cons]; omega, he⟩

/-- C4: for a multi-page document whose pages all rasterize and whose
truthy extraction results are dicts (so no exception aborts the page
loop), every page undergoes exactly one extraction attempt, the file
produces at most `P` records — the page-order filter-map of per-page
outcomes, so a failed page skips nothing that follows — and every record
carries the provenance stamp `name - Page (j+1)` for its 0-based page
index `j < P`. -/
theorem pdf_pages_independent (name : List Char) (ps : List PageStep)
    (h : ∀ p ∈ ps, pageWellBehaved p = true) :
    processPdfFile ⟨name, some ps⟩ = (independentPageRecords name 0 ps, []) ∧
    (processPdfPages name 0 ps).2.2 = ps.length ∧
    (independentPageRecords name 0 ps).length ≤ ps.length ∧
    ∀ rec ∈ independentPageRecords name 0 ps, ∃ j o, j < ps.length ∧
      rec = JVal.obj (objSet o filenameKey (.str (pdfPageName name j))) := by
  have he := processPdfPages_eq name ps h 0
  refine ⟨?_, ?_, independentPageRecords_length name ps 0, ?_⟩
  · simp [processPdfFile, he]
  · rw [he]
  · intro rec hrec
    obtain ⟨j, o, hj, heq⟩ := independentPageRecords_mem name ps 0 rec hrec
    rw [Nat.zero_add] at heq
    exact ⟨j, o, hj, heq⟩

/-- Witness for `pdf_pages_independent` on a two-page document whose
second page fails to decode. -/
theorem pdf_pages_independent_witness :
    (∀ p ∈ demoPdfPages, pageWellBehaved p = true) ∧
    (processPdfFile ⟨("doc.pdf").data, some demoPdfPages⟩
        = (independentPageRecords (("doc.pdf").data) 0 demoPdfPages, []) ∧
      (processPdfPages (("doc.pdf").data) 0 demoPdfPages).2.2
        = demoPdfPages.length ∧
      (independentPageRecords (("doc.pdf").data) 0 demoPdfPages).length
        ≤ demoPdfPages.length ∧
      ∀ rec ∈ independentPageRecords (("doc.pdf").data) 0 demoPdfPages,
        ∃ j o, j < demoPdfPages.length ∧
          rec = JVal.obj (objSet o filenameKey
            (.str (pdfPageName (("doc.pdf").data) j)))) :=
  ⟨by decide, pdf_pages_independent (("doc.pdf").data) demoPdfPages (by decide)⟩

theorem objLookup_objSet_self (o : List (List Char × JVal)) (k : List Char)
    (v : JVal) : objLookup (objSet o k v) k = some v := by
  induction o with
  | nil => simp [objSet, objLookup]
  | cons p rest ih =>
    obtain ⟨k0, v0⟩ := p
    by_cases hk : k0 = k
    · simp [objSet, objLookup, hk]
    · simp [objSet, objLookup, hk, ih]

theorem processImageItem_mem_shape (f : ImgUpload) (rec : JVal)
    (h : rec ∈ (processImageItem f).1) :
    ∃ o, rec = JVal.obj (objSet o filenameKey (.str f.name)) := by
  obtain ⟨name, step⟩ := f
  cases step with
  | openErr => simp [processImageItem] at h
  | gotReply r =>
    cases hx : extract_work_order_data r with
    | none => simp [processImageItem, hx] at h
    | some v =>
      by_cases htr : pyTruthy v = true
      · cases v with
        | obj o =>
          simp [processImageItem, hx, htr] at h
          exact ⟨o, h⟩
        | null => simp [processImageItem, hx, htr] at h
        | bool b => simp [processImageItem, hx, htr] at h
        | num n => simp [processImageItem, hx, htr] at h
        | str s => simp [processImageItem, hx, htr] at h
        | arr es => simp [processImageItem, hx, htr] at h
      · simp [processImageItem, hx, htr] at h

theorem processImages_mem_shape (files : List ImgUpload) (rec : JVal)
    (h : rec ∈ (processImages files).1) :
    ∃ f, f ∈ files ∧ ∃ o, rec = JVal.obj (objSet o filenameKey (.str f.name)) := by
  induction files with
  | nil => simp [processImages] at h
  | cons f rest ih =>
    simp only [processImages] at h
    rcases List.mem_append.mp h with h1 | h2
    · exact ⟨f, by simp, processImageItem_mem_shape f rec h1⟩
    · obtain ⟨g, hg, ho⟩ := ih h2
      exact ⟨g, List.mem_cons_of_mem f hg, ho⟩

theorem processPdfPages_mem_shape (name : List Char) (ps : List PageStep) :
    ∀ k rec, rec ∈ (processPdfPages name k ps).1 →
      ∃ j o, rec = JVal.obj (objSet o filenameKey (.str (pdfPageName name j))) := by
  induction ps with
  | nil => intro k rec h; simp [processPdfPages] at h
  | cons p rest ih =>
    intro k rec h
    cases p with
    | rasterErr => simp [processPdfPages] at h
    | gotReply r =>
      cases hx : extract_work_order_data r with
      | none =>
        simp only [processPdfPages, hx] at h
        exact ih (k + 1) rec h
      | some v =>
        by_cases htr : pyTruthy v = true
        · cases v with
          | obj o =>
            simp only [processPdfPages, hx, htr, if_true] at h
            rcases List.mem_cons.mp h with he | hmem
            · exact ⟨k, o, he⟩
            · exact ih (k + 1) rec hmem
          | null => simp [processPdfPages, hx, htr] at h
          | bool b => simp [processPdfPages, hx, htr] at h
          | num n => simp [processPdfPages, hx, htr] at h
          | str s => simp [processPdfPages, hx, htr] at h
          | arr es => simp [processPdfPages, hx, htr] at h
        · simp only [processPdfPages, hx] at h
          rw [if_neg htr] at h
          exact ih (k + 1) rec h

/-- C6: `filename` is not among the nine fields the prompt requests;
Python dict assignment overwrites any existing binding for the assigned
key; and every record either branch of the pipeline outputs carries a
`filename` binding equal to the upload's display name (Images branch) or
the display name with a 1-based page suffix (PDF branch), regardless of
what the model returned for that key. -/
theorem filename_stamped_by_pipeline (files : List ImgUpload) (rec : JVal)
    (h : rec ∈ (processImages files).1)
    (name : List Char) (ps : List PageStep) (rec2 : JVal)
    (h2 : rec2 ∈ (processPdfFile ⟨name, some ps⟩).1) :
    filenameKey ∉ promptFields ∧
    (∀ o v, objLookup (objSet o filenameKey v) filenameKey = some v) ∧
    (∃ f, f ∈ files ∧ ∃ o,
      rec = JVal.obj (objSet o filenameKey (.str f.name)) ∧
      objLookup (objSet o filenameKey (.str f.name)) filenameKey
        = some (.str f.name)) ∧
    (∃ j o, rec2 = JVal.obj (objSet o filenameKey (.str (pdfPageName name j))) ∧
      objLookup (objSet o filenameKey (.str (pdfPageName name j))) filenameKey
        = some (.str (pdfPageName name j))) := by
  refine ⟨by decide, fun o v => objLookup_objSet_self o filenameKey v, ?_, ?_⟩
  · obtain ⟨f, hf, o, ho⟩ := processImages_mem_shape files rec h
    exact ⟨f, hf, o, ho, objLookup_objSet_self o filenameKey _⟩
  · have h2' : rec2 ∈ (processPdfPages name 0 ps).1 := by
      simpa [processPdfFile] using h2
    obtain ⟨j, o, ho⟩ := processPdfPages_mem_shape name ps 0 rec2 h2'
    exact ⟨j, o, ho, objLookup_objSet_self o filenameKey _⟩

/-- Witness for `filename_stamped_by_pipeline` on the demo image batch
and the demo two-page document. -/
theorem filename_stamped_by_pipeline_witness :
    (JVal.obj [(("hours").data, JVal.num 2),
        (filenameKey, JVal.str ("a.png").data)]
      ∈ (processImages demoImgBatch).1) ∧
    (JVal.obj [(("hours").data, JVal.num 2),
        (filenameKey, JVal.str ("doc.pdf - Page 1").data)]
      ∈ (processPdfFile ⟨("doc.pdf").data, some demoPdfPages⟩).1) ∧
    (filenameKey ∉ promptFields ∧
      (∀ o v, objLookup (objSet o filenameKey v) filenameKey = some v) ∧
      (∃ f, f ∈ demoImgBatch ∧ ∃ o,
        JVal.obj [(("hours").data, JVal.num 2),
            (filenameKey, JVal.str ("a.png").data)]
          = JVal.obj (objSet o filenameKey (.str f.name)) ∧
        objLookup (objSet o filenameKey (.str f.name)) filenameKey
          = some (.str f.name)) ∧
      (∃ j o,
        JVal.obj [(("hours").data, JVal.num 2),
            (filenameKey, JVal.str ("doc.pdf - Page 1").data)]
          = JVal.obj (objSet o filenameKey
              (.str (pdfPageName (("doc.pdf").data) j))) ∧
        objLookup (objSet o filenameKey
              (.str (pdfPageName (("doc.pdf").data) j))) filenameKey
          = some (.str (pdfPageName (("doc.pdf").data) j)))) :=
  ⟨List.Mem.head _, List.Mem.head _,
    filename_stamped_by_pipeline demoImgBatch _ (List.Mem.head _)
      (("doc.pdf").data) demoPdfPages _ (List.Mem.head _)⟩

theorem processImages_append (xs ys : List ImgUpload) :
    processImages (xs ++ ys)
      = ((processImages xs).1 ++ (processImages ys).1,
         (processImages xs).2 ++ (processImages ys).2) := by
  induction xs with
  | nil => simp [processImages]
  | cons f rest ih => simp [processImages, ih]

/-- C9: a reply that decodes successfully to a falsy JSON value — the
empty object or the literal null — is treated as an extraction failure:
in the Images branch the item contributes no record and emits the
per-item warning naming it, and in the PDF page loop the page
contributes no record while the following pages are still processed. -/
theorem falsy_decode_counts_as_failure (name t : List Char)
    (xs ys : List ImgUpload) (k : Nat) (rest : List PageStep)
    (h : json_loads (stripFences t) = some (.obj [])
       ∨ json_loads (stripFences t) = some .null) :
    processImages (xs ++ ⟨name, .gotReply (.reply t)⟩ :: ys)
      = ((processImages xs).1 ++ (processImages ys).1,
         (processImages xs).2
           ++ ItemMsg.warnFailed name :: (processImages ys).2) ∧
    (processPdfPages name k (.gotReply (.reply t) :: rest)).1
      = (processPdfPages name (k + 1) rest).1 := by
  have hext : extract_work_order_data (.reply t) = some (.obj [])
      ∨ extract_work_order_data (.reply t) = some .null := h
  have hitem : processImageItem ⟨name, .gotReply (.reply t)⟩
      = ([], [.warnFailed name]) := by
    rcases hext with h1 | h1 <;> simp [processImageItem, h1, pyTruthy]
  constructor
  · rw [processImages_append]
    have hmid : processImages (⟨name, .gotReply (.reply t)⟩ :: ys)
        = ((processImages ys).1,
           ItemMsg.warnFailed name :: (processImages ys).2) := by
      simp [processImages, hitem]
    rw [hmid]
  · rcases hext with h1 | h1 <;> simp [processPdfPages, h1, pyTruthy]

/-- Witness for `falsy_decode_counts_as_failure` at the reply `null`. -/
theorem falsy_decode_counts_as_failure_witness :
    (json_loads (stripFences (("null").data)) = some (.obj [])
       ∨ json_loads (stripFences (("null").data)) = some .null) ∧
    (processImages ([] ++ (⟨("x.png").data, .gotReply (.reply (("null").data))⟩ : ImgUpload) :: [])
        = ((processImages []).1 ++ (processImages []).1,
           (processImages []).2
             ++ ItemMsg.warnFailed (("x.png").data) :: (processImages []).2) ∧
      (processPdfPages (("x.png").data) 0
          (.gotReply (.reply (("null").data)) :: [])).1
        = (processPdfPages (("x.png").data) 1 []).1) :=
  ⟨Or.inr rfl,
    falsy_decode_counts_as_failure (("x.png").data) (("null").data)
      [] [] 0 [] (Or.inr rfl)⟩

/-- C7: the displayed page count is `(count + page_size - 1) //
page_size` when the count is positive — the least number of pages whose
total capacity covers all matching rows, i.e. the ceiling of
`count / page_size` — and is floored at 1 when the count is 0. -/
theorem pagination_page_count (c s : Nat) (hs : 0 < s) :
    (c = 0 → total_pages c s = 1) ∧
    (0 < c → c ≤ s * total_pages c s ∧ s * (total_pages c s - 1) < c) := by
  constructor
  · intro hc; simp [total_pages, hc]
  · intro hc
    have hne : c ≠ 0 := Nat.pos_iff_ne_zero.mp hc
    rw [total_pages, if_pos hne]
    constructor
    · have h1 := Nat.div_add_mod (c + s - 1) s
      have h2 : (c + s - 1) % s < s := Nat.mod_lt _ hs
      generalize hu : s * ((c + s - 1) / s) = u at h1 ⊢
      omega
    · have h1 := Nat.div_add_mod (c + s - 1) s
      have h2 : (c + s - 1) % s < s := Nat.mod_lt _ hs
      rcases Nat.eq_zero_or_pos ((c + s - 1) / s) with h0 | hpos
      · rw [h0]
        simpa using hc
      · obtain ⟨q', hq'⟩ := Nat.exists_eq_add_of_le hpos
        rw [hq'] at h1 ⊢
        have hmul : s * (1 + q') = s * q' + s := by ring
        rw [hmul] at h1
        have hsub : 1 + q' - 1 = q' := by omega
        rw [hsub]
        generalize hu : s * q' = u at h1 ⊢
        omega

/-- Witness for `pagination_page_count` at the spec's scenario of 15
matching rows and a page size of 10 (two pages). -/
theorem pagination_page_count_witness :
    (0 < 10) ∧
    ((15 = 0 → total_pages 15 10 = 1) ∧
      (0 < 15 → 15 ≤ 10 * total_pages 15 10 ∧
        10 * (total_pages 15 10 - 1) < 15)) :=
  ⟨by decide, pagination_page_count 15 10 (by decide)⟩

/-- C8 counterexample: a batch containing exactly the ten schema columns
is displayed in the code's hard-coded order, in which `description` is
the ninth column, not the third as §3's preferred order states — so the
claimed §3 column order is not produced even on the schema columns
themselves. -/
theorem description_column_misplaced :
    reorderColumns specSection3Order = preferred_order ∧
    preferred_order ≠ specSection3Order ∧
    preferred_order[8]? = some (("description").data) ∧
    specSection3Order[2]? = some (("description").data) := by
  refine ⟨by decide, by decide, by decide, by decide⟩

/-- C8 (amended): the displayed/exported columns appear in the code's
preferred order — work_order_number, job_number, date, hours,
total_amount_due, signed_by_both, customer_sign, wcdp_sign, description,
filename — with any unrecognized columns appended afterward in their
original relative order. -/
theorem export_column_order (cols : List (List Char))
    (h : ∀ c ∈ preferred_order, c ∈ cols) :
    reorderColumns cols
      = preferred_order
          ++ cols.filter (fun c => decide (c ∉ preferred_order)) ∧
    (cols.filter (fun c => decide (c ∉ preferred_order))).Sublist cols := by
  constructor
  · unfold reorderColumns
    congr 1
    apply List.filter_eq_self.mpr
    intro a ha
    simpa using h a ha
  · exact List.filter_sublist cols

/-- Witness for `export_column_order` on the ten schema columns plus one
unrecognized extra column. -/
theorem export_column_order_witness :
    (∀ c ∈ preferred_order, c ∈ specSection3Order ++ [("extra").data]) ∧
    (reorderColumns (specSection3Order ++ [("extra").data])
        = preferred_order
            ++ (specSection3Order ++ [("extra").data]).filter
                (fun c => decide (c ∉ preferred_order)) ∧
      ((specSection3Order ++ [("extra").data]).filter
          (fun c => decide (c ∉ preferred_order))).Sublist
        (specSection3Order ++ [("extra").data])) :=
  ⟨by decide, export_column_order (specSection3Order ++ [("extra").data])
    (by decide)⟩

/-- C10: a run producing zero records leaves the stored session batch —
and hence the display condition — unchanged, while a run with at least
one record replaces the stored batch wholesale. -/
theorem empty_run_preserves_session (prev : Option (List JVal))
    (b : List JVal) (hb : b ≠ []) :
    updateSession prev [] = prev ∧
    displayCond (updateSession prev []) = displayCond prev ∧
    updateSession prev b = some b := by
  refine ⟨rfl, rfl, ?_⟩
  simp [updateSession, hb]

/-- Witness for `empty_run_preserves_session` with a stored one-record
batch and a one-record new run. -/
theorem empty_run_preserves_session_witness :
    ([JVal.bool true] ≠ ([] : List JVal)) ∧
    (updateSession (some [JVal.null]) [] = some [JVal.null] ∧
      displayCond (updateSession (some [JVal.null]) [])
        = displayCond (some [JVal.null]) ∧
      updateSession (some [JVal.null]) [JVal.bool true]
        = some [JVal.bool true]) :=
  ⟨List.cons_ne_nil _ _,
    empty_run_preserves_session (some [JVal.null]) [JVal.bool true]
      (List.cons_ne_nil _ _)⟩
